import Mathlib

/-!
Verification of the static-site generator `scripts/build_index.py`.

The Python code is shallowly embedded: strings are modelled as `List Char`
(Python `str` values, code-point for code-point), Python slices become
`Slice.take`/`drop` combinations, the `re` scans used by the code are
modelled by explicit left-to-right scanners, and the filesystem inputs are
passed in explicitly (an `Option` value models a file that may be absent).
Python's `\s`/`str.strip` whitespace class is restricted to its ASCII part,
which is exact for the ASCII connector/URL machinery the code uses.
-/

set_option maxRecDepth 100000

namespace BuildIndex

abbrev Chars := List Char

/-- ASCII part of Python's whitespace class (`str.strip`, regex `\s`). -/
def isPySpace (c : Char) : Bool :=
  c = ' ' || c = '\t' || c = '\n' || c = '\r' || c = '\x0b' || c = '\x0c'

/-- Python `s.strip()`: drop whitespace from both ends. -/
def pyStrip (s : Chars) : Chars :=
  ((s.dropWhile isPySpace).reverse.dropWhile isPySpace).reverse

/-- Python slice `s[a:b]` (clamping semantics for `b < a` included). -/
def slice (s : Chars) (a b : Nat) : Chars := (s.drop a).take (b - a)

/-- All indices `i` of `s` at which `sub` occurs (`sub` is a prefix of `s.drop i`). -/
def occIdxs (s sub : Chars) : List Nat :=
  (List.range (s.length + 1)).filter (fun i => sub.isPrefixOf (s.drop i))

/-- Scan for the leftmost occurrence of `sub`, carrying the index already
scanned past (tail recursive so that evaluation runs in constant stack). -/
def findSubFrom : Chars → Chars → Nat → Option Nat
  | [], sub, i => if sub.isEmpty then some i else none
  | c :: t, sub, i => if sub.isPrefixOf (c :: t) then some i else findSubFrom t sub (i + 1)

/-- Python `s.find(sub)` as an `Option`: leftmost occurrence. -/
def findSub (s sub : Chars) : Option Nat := findSubFrom s sub 0

/-- Python `s.rfind(sub)` as an `Option`: rightmost occurrence. -/
def rfindSub (s sub : Chars) : Option Nat := (occIdxs s sub).getLast?

/-- Python `s.rfind(sub)`: rightmost occurrence index, `-1` when absent. -/
def rfindZ (s sub : Chars) : Int :=
  match rfindSub s sub with
  | some i => (i : Int)
  | none => -1

/-- One character of Python `html.escape(s, quote=True)`. -/
def escChar (c : Char) : Chars :=
  if c = '&' then "&amp;".data
  else if c = '<' then "&lt;".data
  else if c = '>' then "&gt;".data
  else if c.toNat = 34 then "&quot;".data
  else if c.toNat = 39 then ['&', '#', 'x', '2', '7', ';']
  else [c]

/-- Python `html.escape(s, quote=True)` (used for both labels and hrefs). -/
def pyHtmlEscape (s : Chars) : Chars := s.flatMap escChar

def pyHtmlEscapeS (s : String) : String := ⟨pyHtmlEscape s.data⟩

/-- Python `s.replace(old, new)`: leftmost non-overlapping replacement
(`old` non-empty in every use here; the fuel strictly bounds the scan). -/
def pyReplaceAux (old new : Chars) : Nat → Chars → Chars
  | 0, s => s
  | fuel + 1, s =>
    match findSub s old with
    | none => s
    | some i => s.take i ++ new ++ pyReplaceAux old new fuel (s.drop (i + old.length))

def pyReplace (s old new : Chars) : Chars := pyReplaceAux old new s.length s

/-- Python `s.split(sep)` for a non-empty separator. -/
def pySplitAux (sep : Chars) : Nat → Chars → List Chars
  | 0, s => [s]
  | fuel + 1, s =>
    match findSub s sep with
    | none => [s]
    | some i => s.take i :: pySplitAux sep fuel (s.drop (i + sep.length))

def pySplit (s sep : Chars) : List Chars := pySplitAux sep s.length s

/-- Code-point lexicographic order on character lists (Python `str` `<=`,
which is also how `sorted` orders the sibling paths the code globs). -/
def lexLe : Chars → Chars → Bool
  | [], _ => true
  | _ :: _, [] => false
  | a :: as, b :: bs => if a = b then lexLe as bs else decide (a.toNat < b.toNat)

/-! ### The connector-based label extractor (`render_bio_paragraph_html`) -/

/-- The fixed connector priority list of `render_bio_paragraph_html`. -/
def connectors : List String :=
  [" at the ", " from the ", " in the ", " at ", " from ", " in ", " and ",
   " or ", " (", "; ", ": ", ", ", "\n", ". "]

/-- The `for conn in connectors` fold of `render_bio_paragraph_html`:
running best `(split_at, split_conn)` starting from `(-1, "")`, replaced
whenever a connector's rightmost occurrence is strictly further right. -/
def chooseSplit (absLeft : Chars) : Int × String :=
  connectors.foldl
    (fun best conn => if best.1 < rfindZ absLeft conn.data then (rfindZ absLeft conn.data, conn) else best)
    (-1, "")

/-- A character the regex class `[^)\s]` accepts. -/
def urlChar (c : Char) : Bool := !(c = ')') && !(isPySpace c)

/-- The scheme alternative `https?://` of the URL group: the number of
characters matched at the front of `rest`, if any. -/
def schemeLen (rest : Chars) : Option Nat :=
  if "https://".data.isPrefixOf rest then some 8
  else if "http://".data.isPrefixOf rest then some 7
  else none

/-- Attempt of the regex `\((https?://[^)\s]+)\)` anchored at position `p`:
returns the end position (one past the closing parenthesis) and the captured
URL group on success. -/
def matchAt (s : Chars) (p : Nat) : Option (Nat × Chars) :=
  match s.drop p with
  | [] => none
  | c :: rest =>
    if c = '(' then
      match schemeLen rest with
      | none => none
      | some k =>
        if ((rest.drop k).takeWhile urlChar).isEmpty then none
        else
          match (rest.drop k).drop ((rest.drop k).takeWhile urlChar).length with
          | [] => none
          | d :: _ =>
            if d = ')' then
              some (p + 1 + k + ((rest.drop k).takeWhile urlChar).length + 1,
                rest.take (k + ((rest.drop k).takeWhile urlChar).length))
            else none
    else none

/-- One match of `paren_url.finditer`. -/
structure PMatch where
  start : Nat
  stop : Nat
  url : Chars
  deriving DecidableEq, Repr

/-- Leftmost, non-overlapping scan of `paren_url.finditer(text)`; the fuel
is an upper bound on the number of scan steps (`s.length` suffices since
every step advances the position). -/
def findAux (s : Chars) : Nat → Nat → List PMatch
  | 0, _ => []
  | fuel + 1, p =>
    if p < s.length then
      match matchAt s p with
      | some (e, url) => ⟨p, e, url⟩ :: findAux s fuel e
      | none => findAux s fuel (p + 1)
    else []

def findMatches (s : Chars) : List PMatch := findAux s s.length 0

/-- `label_start = split_at + len(split_conn) if split_at >= 0 else cursor`,
with `abs_left = text[:lparen]`. -/
def labelStartFor (s : Chars) (cursor lparen : Nat) : Nat :=
  let r := chooseSplit (s.take lparen)
  if 0 ≤ r.1 then r.1.toNat + r.2.length else cursor

/-- `label = text[label_start:lparen].strip()`. -/
def labelFor (s : Chars) (cursor lparen : Nat) : Chars :=
  pyStrip (slice s (labelStartFor s cursor lparen) lparen)

/-- The anchor string built for a non-empty label:
`<a href="{html.escape(url, quote=True)}">{html.escape(label)}</a>`. -/
def anchorFor (url label : Chars) : Chars :=
  "<a href=\"".data ++ pyHtmlEscape url ++ "\">".data ++ pyHtmlEscape label ++ "</a>".data

/-- The match loop of `render_bio_paragraph_html`: `cursor` is the index of
the first input character not yet emitted; after each match (either branch)
it moves to the match end. -/
def renderLoop (s : Chars) : List PMatch → Nat → Chars
  | [], cursor => s.drop cursor
  | m :: ms, cursor =>
    if (labelFor s cursor m.start).isEmpty then
      slice s cursor m.stop ++ renderLoop s ms m.stop
    else
      slice s cursor (labelStartFor s cursor m.start) ++
        anchorFor m.url (labelFor s cursor m.start) ++ renderLoop s ms m.stop

def renderBio (s : Chars) : Chars := renderLoop s (findMatches s) 0

/-- `render_bio_paragraph_html`: convert `Label (URL)` pairs to anchors. -/
def render_bio_paragraph_html (s : String) : String := ⟨renderBio s.data⟩

example :
    render_bio_paragraph_html "He studied at the Example Institute (https://example.org/inst)" =
      "He studied at the <a href=\"https://example.org/inst\">Example Institute</a>" := by decide

example : render_bio_paragraph_html "(https://example.org)" = "(https://example.org)" := by decide

example :
    render_bio_paragraph_html "A at B (http://x) (http://y)" =
      "A at <a href=\"http://x\">B</a><a href=\"http://y\">http://x)</a>" := by decide

example :
    render_bio_paragraph_html "http://x (http://x)" =
      "<a href=\"http://x\">http://x</a>" := by decide

example : render_bio_paragraph_html "a < b" = "a < b" := by decide

example :
    render_bio_paragraph_html "x (http://a) tail" =
      "<a href=\"http://a\">x</a> tail" := by decide

/-! ### Constants of the script -/

def EMAIL : String := "skobelev@uchicago.edu"
def NAME : String := "Kirill Skobelev"
def PAGE_TITLE : String := "Kirill Skobelev"

/-! ### File loading (`paragraphs_from_file`, link tables, publication rows)

Filesystem reads are passed in explicitly: `none` models an absent file,
`some v` a present file with (already CSV-decoded, where applicable)
content `v`.  CSV decoding itself is outside the modelled layer. -/

/-- `paragraphs_from_file`: split a text file into paragraphs on blank lines. -/
def paragraphs_from_file (file : Option String) : List String :=
  match file with
  | none => []
  | some content =>
    let text := pyStrip content.data
    if text.isEmpty then []
    else
      (((pySplit (pyReplace text "\r\n".data "\n".data) "\n\n".data).map pyStrip).filter
          (fun p => !p.isEmpty)).map (fun p => (⟨p⟩ : String))

def pyStripS (s : String) : String := ⟨pyStrip s.data⟩

/-- `load_author_links` exposed through `dict.get`: rows of
`coauthor_links.csv` as `(name, url)` pairs; rows with empty name or URL
are skipped, later rows overwrite earlier ones (Python dict assignment). -/
def load_author_links (file : Option (List (String × String))) : String → Option String :=
  fun n =>
    match file with
    | none => none
    | some rows =>
      rows.foldl
        (fun acc r =>
          let nm := pyStripS r.1
          let url := pyStripS r.2
          if nm ≠ "" ∧ url ≠ "" ∧ nm = n then some url else acc)
        none

/-- `load_social_links` exposed through `dict.get`: starts from the implicit
`Email` mailto entry; rows with empty label or link are skipped, later rows
overwrite earlier ones. -/
def load_social_links (file : Option (List (String × String))) : String → Option String :=
  fun label =>
    let base : Option String := if label = "Email" then some ("mailto:" ++ EMAIL) else none
    match file with
    | none => base
    | some rows =>
      rows.foldl
        (fun acc r =>
          let l := pyStripS r.1
          let href := pyStripS r.2
          if l ≠ "" ∧ href ≠ "" ∧ l = label then some href else acc)
        base

/-- One row of `publications.csv` (missing columns read as `""`). -/
structure PubRow where
  publication : String := ""
  title : String := ""
  authors : String := ""
  year : String := ""
  comments : String := ""
  code_link : String := ""
  paper_link : String := ""
  deriving Repr, DecidableEq

/-- The per-row `{k: (v or "").strip()}` of `load_publication_rows`. -/
def stripRow (r : PubRow) : PubRow :=
  ⟨pyStripS r.publication, pyStripS r.title, pyStripS r.authors, pyStripS r.year,
   pyStripS r.comments, pyStripS r.code_link, pyStripS r.paper_link⟩

/-- `load_publication_rows`: unlike every other loader it performs no
existence check, so an absent `publications.csv` raises (modelled as
`Except.error`). -/
def load_publication_rows (file : Option (List PubRow)) : Except Unit (List PubRow) :=
  match file with
  | none => .error ()
  | some rows => .ok (rows.map stripRow)

/-! ### Asset folder matching (`find_publication_folder`, `first_file`) -/

/-- Split a glob pattern at its `*` wildcards. -/
def globSegs (pat : Chars) : List Chars := pySplit pat ['*']

/-- Match the middle literal segments of a glob left to right, each at its
leftmost occurrence, returning the unconsumed remainder. -/
def matchMids : List Chars → Chars → Option Chars
  | [], rest => some rest
  | sg :: more, rest =>
    match findSub rest sg with
    | none => none
    | some i => matchMids more (rest.drop (i + sg.length))

/-- `fnmatch` semantics of the `*`-and-literal glob patterns the code uses
(`"<id>_*"`, `"*_illustration.*"`, `"*_abstract.txt"`). -/
def globMatch (pat name : Chars) : Bool :=
  match globSegs pat with
  | [] => name.isEmpty
  | [sg] => name == sg
  | sg :: more =>
    sg.isPrefixOf name &&
      (match matchMids more.dropLast (name.drop sg.length) with
       | none => false
       | some rest => (more.getLastD []).isSuffixOf rest)

/-- One directory entry of the publications directory: a folder name and the
files inside it (file name and file content). -/
structure PubFolder where
  name : String
  files : List (String × String)
  deriving Repr, DecidableEq

/-- `sorted(...)` on sibling paths: code-point order on the names. -/
def sortFolders (l : List PubFolder) : List PubFolder :=
  List.insertionSort (fun a b => lexLe a.name.data b.name.data = true) l

def sortFiles (l : List (String × String)) : List (String × String) :=
  List.insertionSort (fun a b => lexLe a.1.data b.1.data = true) l

/-- `find_publication_folder`: first sorted folder matching `"<id>_*"`. -/
def find_publication_folder (folders : List PubFolder) (pubId : String) : Option PubFolder :=
  (sortFolders (folders.filter (fun f => globMatch (pubId ++ "_*").data f.name.data))).head?

/-- `first_file`: first sorted file of the folder matching the glob. -/
def first_file (files : List (String × String)) (pat : String) : Option (String × String) :=
  (sortFiles (files.filter (fun f => globMatch pat.data f.1.data))).head?

example :
    find_publication_folder
      [⟨"3_alpha", []⟩, ⟨"3_beta", []⟩, ⟨"2_gamma", []⟩] "3" = some ⟨"3_alpha", []⟩ := by decide

/-! ### The markup tree and its serialization

BeautifulSoup's tree, restricted to what the code builds: element tags with
ordered attributes, text nodes (escaped on output by the default `minimal`
formatter), and pre-rendered fragments (the parsed bio paragraph HTML and
the inline script body, emitted as-is). -/

inductive Node where
  | tag (name : String) (attrs : List (String × String)) (children : List Node)
  | text (s : String)
  | raw (s : String)

/-- BeautifulSoup `minimal` formatter on text nodes: entity-escape `&<>`. -/
def escTextChar (c : Char) : Chars :=
  if c = '&' then "&amp;".data
  else if c = '<' then "&lt;".data
  else if c = '>' then "&gt;".data
  else [c]

def escText (s : String) : String := ⟨s.data.flatMap escTextChar⟩

/-- Attribute values additionally escape the double quote. -/
def escAttrChar (c : Char) : Chars :=
  if c = '&' then "&amp;".data
  else if c = '<' then "&lt;".data
  else if c = '>' then "&gt;".data
  else if c.toNat = 34 then "&quot;".data
  else [c]

def escAttr (s : String) : String := ⟨s.data.flatMap escAttrChar⟩

def attrsString (attrs : List (String × String)) : String :=
  attrs.foldl (fun acc kv => acc ++ " " ++ kv.1 ++ "=\"" ++ escAttr kv.2 ++ "\"") ""

/-- HTML void elements, which BeautifulSoup serializes self-closed. -/
def voidTags : List String := ["meta", "link", "img", "br", "hr", "input"]

mutual

def serializeNode : Node → String
  | .text s => escText s
  | .raw s => s
  | .tag nm attrs children =>
    if children.isEmpty && voidTags.contains nm then
      "<" ++ nm ++ attrsString attrs ++ "/>"
    else
      "<" ++ nm ++ attrsString attrs ++ ">" ++ serializeNodes children ++ "</" ++ nm ++ ">"

def serializeNodes : List Node → String
  | [] => ""
  | n :: ns => serializeNode n ++ serializeNodes ns

end

/-! ### Section builders -/

/-- `build_social_nav`'s fixed preferred ordering. -/
def socialOrder : List String := ["Email", "LinkedIn", "CV", "Google Scholar"]

/-- The `(label, href)` pairs `build_social_nav` keeps: preferred order,
skipping labels whose lookup is missing or falsy (`if not href: continue`). -/
def socialEntries (get : String → Option String) : List (String × String) :=
  socialOrder.filterMap (fun label =>
    match get label with
    | none => none
    | some href => if href = "" then none else some (label, href))

/-- The anchor built per entry; only `CV` gets the `download` attribute. -/
def socialAnchor (e : String × String) : Node :=
  .tag "a" (("href", e.2) :: (if e.1 = "CV" then [("download", "")] else [])) [.text e.1]

/-- `build_social_nav`: the social links `<nav>`. -/
def build_social_nav (get : String → Option String) : Node :=
  .tag "nav" [("class", "social-links")] ((socialEntries get).map socialAnchor)

/-- `build_bio_section`: Bio heading plus one `<p>` of linkified HTML per
bio paragraph (the paragraph fragment is parsed and re-emitted). -/
def build_bio_section (bio : Option String) : Node :=
  .tag "section" [("class", "section"), ("id", "bio")]
    [.tag "h2" [] [.text "Bio"],
     .tag "div" [("id", "bio-content")]
       ((paragraphs_from_file bio).map (fun para =>
         .tag "p" [] [.raw (render_bio_paragraph_html para)]))]

/-- One name of the author meta line: an anchor when the lookup is truthy,
plain text otherwise. -/
def authorNode (get : String → Option String) (n : String) : Node :=
  match get n with
  | some url => if url = "" then .text n else .tag "a" [("href", url)] [.text n]
  | none => .text n

/-- `[name.strip() for name in authors.replace(";", ",").split(",") if name.strip()]` -/
def splitAuthors (authors : String) : List String :=
  (((pySplit (pyReplace authors.data ";".data ",".data) ",".data).map pyStrip).filter
      (fun n => !n.isEmpty)).map (fun n => (⟨n⟩ : String))

/-- The `for idx, name in enumerate(names)` loop body: a `", "` separator
before every name except the first. -/
def metaLoop (get : String → Option String) : Nat → List String → List Node
  | _, [] => []
  | idx, n :: ns =>
    (if idx = 0 then [] else [Node.text ", "]) ++ (authorNode get n :: metaLoop get (idx + 1) ns)

/-- The children of the `pub-meta` paragraph: author names (with optional
links) and the year suffix. -/
def metaNodes (authors year : String) (get : String → Option String) : List Node :=
  (if authors ≠ "" then metaLoop get 0 (splitAuthors authors) else []) ++
    (if authors ≠ "" ∧ year ≠ "" then [Node.text (" · " ++ year)]
     else if year ≠ "" then [Node.text year] else [])

/-- `build_publication_article`: one `<article>` per CSV row. -/
def build_publication_article (row : PubRow) (author_get : String → Option String)
    (folders : List PubFolder) : Node :=
  let folder := find_publication_folder folders row.publication
  let mediaDiv : Node :=
    .tag "div" [("class", "pub-media")]
      (match folder with
       | some f =>
         match first_file f.files "*_illustration.*" with
         | some ill =>
           [.tag "img"
              [("src", "assets/publications/" ++ f.name ++ "/" ++ ill.1),
               ("alt", "Visualization for " ++ row.title)] []]
         | none => []
       | none => [])
  let abstractParas : List Node :=
    match folder with
    | some f =>
      match first_file f.files "*_abstract.txt" with
      | some ab => (paragraphs_from_file (some ab.2)).map (fun para => .tag "p" [] [.text para])
      | none => []
    | none => []
  let details : Node :=
    .tag "details" [("class", "pub-abstract")]
      [.tag "summary" [] [.text "Abstract"],
       .tag "div" [("class", "pub-abstract-body")] abstractParas]
  let linkChildren : List Node :=
    (if row.code_link ≠ "" then
       [Node.tag "a" [("class", "pub-link"), ("href", row.code_link)] [.text "[code]"]]
     else []) ++
    (if row.paper_link ≠ "" then
       [Node.tag "a" [("class", "pub-link"), ("href", row.paper_link)] [.text "[paper]"]]
     else [])
  let contentDiv : Node :=
    .tag "div" [("class", "pub-content")]
      ([.tag "h3" [] [.text row.title],
        .tag "p" [("class", "pub-meta")] (metaNodes row.authors row.year author_get),
        details] ++
       (if row.comments ≠ "" then
          [Node.tag "p" [("class", "pub-comments")] [.text row.comments]]
        else []) ++
       (if linkChildren.isEmpty then [] else [Node.tag "div" [("class", "pub-links")] linkChildren]))
  .tag "article" [("class", "publication")] [mediaDiv, contentDiv]

/-- `build_publications_section`: the Research section, rows in file order. -/
def build_publications_section (authorFile : Option (List (String × String)))
    (rows : List PubRow) (folders : List PubFolder) : Node :=
  .tag "section" [("class", "section"), ("id", "publications")]
    (Node.tag "h2" [] [.text "Research"] ::
      rows.map (fun row => build_publication_article row (load_author_links authorFile) folders))

/-! ### Whole-document assembly (`build_document`) -/

/-- The inline year script emitted verbatim into the page. -/
def yearScript : String :=
  "(function () \x7b\n  const yearEl = document.getElementById(\"copy-year\");\n  if (yearEl) \x7b yearEl.textContent = new Date().getFullYear(); \x7d\n\x7d)();"

/-- The footer `build_document` constructs — and then never appends to the
body (the variable is built and dropped), so it is absent from the output. -/
def footerNode : Node :=
  .tag "footer" [("class", "site-footer")]
    [.tag "p" []
      [.text "© ", .tag "span" [("id", "copy-year")] [], .text (" " ++ NAME)]]

/-- All filesystem inputs `build_document` reads. -/
structure BuildInputs where
  bio : Option String
  socialRows : Option (List (String × String))
  authorRows : Option (List (String × String))
  pubRows : Option (List PubRow)
  folders : List PubFolder
  deriving Repr

/-- The document tree for already-loaded publication rows. -/
def htmlNode (i : BuildInputs) (rows : List PubRow) : Node :=
  let head : Node :=
    .tag "head" []
      [.tag "meta" [("charset", "utf-8")] [],
       .tag "meta" [("content", "width=device-width, initial-scale=1"), ("name", "viewport")] [],
       .tag "title" [] [.text PAGE_TITLE],
       .tag "link" [("rel", "preconnect"), ("href", "https://fonts.googleapis.com")] [],
       .tag "link" [("rel", "preconnect"), ("href", "https://fonts.gstatic.com"), ("crossorigin", "")] [],
       .tag "link"
         [("rel", "stylesheet"),
          ("href",
            "https://fonts.googleapis.com/css2?family=Roboto+Slab:wght@100..900&family=Roboto:ital,wght@0,100..900;1,100..900&display=swap")] [],
       .tag "link" [("rel", "stylesheet"), ("href", "styles.css")] []]
  let aside : Node :=
    .tag "aside" [("class", "sidebar")]
      [.tag "div" [("class", "profile-header")]
        [.tag "img"
          [("class", "profile-photo"), ("src", "assets/Kirill_Skobelev.jpg"),
           ("alt", "Portrait of " ++ NAME)] [],
         .tag "h1" [] [.text NAME]],
       build_social_nav (load_social_links i.socialRows)]
  let main : Node :=
    .tag "main" [("class", "content")]
      [build_bio_section i.bio, build_publications_section i.authorRows rows i.folders]
  let body : Node :=
    .tag "body" []
      [.tag "div" [("class", "layout")] [aside, main],
       .tag "script" [] [.raw yearScript]]
  .tag "html" [("lang", "en")] [head, body]

/-- `build_document`: assemble and serialize the page; the only hard
failure is an absent publications table. -/
def build_document (i : BuildInputs) : Except Unit String :=
  match load_publication_rows i.pubRows with
  | .error e => .error e
  | .ok rows => .ok (serializeNode (htmlNode i rows))

/-! ### Auxiliary notions used by the statements and proofs -/

/-- Substring test (Python `sub in s`). -/
def hasSubS (s sub : String) : Bool := (findSub s.data sub.data).isSome

/-- Well-formedness of a match list relative to a scan position: matches
come in order, do not overlap, and each is a real regex match of `s`. -/
def MChain (s : Chars) : Nat → List PMatch → Prop
  | _, [] => True
  | p, m :: ms => p ≤ m.start ∧ matchAt s m.start = some (m.stop, m.url) ∧ MChain s m.stop ms

/-- The cursor value after the renderer has consumed the given matches
(both branches of the loop set `cursor = m.end()`). -/
def curAt (c : Nat) (ms : List PMatch) : Nat := ms.foldl (fun _ m => m.stop) c

/-- Whether a serialized anchor carries the `download` attribute. -/
def hasDownload (n : Node) : Bool :=
  match n with
  | .tag _ attrs _ => attrs.contains ("download", "")
  | _ => false

/-- The generic shape of the connector-selection fold (`chooseSplit` is
this fold at `f = rfind` over the connector list). -/
def bestFold (f : String → Int) (l : List String) (b₀ : Int × String) : Int × String :=
  l.foldl (fun b c => if b.1 < f c then (f c, c) else b) b₀

/-! ## Lemmas about slices and the regex scan -/

lemma slice_split (s : Chars) {a b c : Nat} (hab : a ≤ b) (hbc : b ≤ c) :
    slice s a c = slice s a b ++ slice s b c := by
  unfold slice
  have h1 : c - a = (b - a) + (c - b) := by omega
  have h2 : (s.drop a).drop (b - a) = s.drop b := by
    rw [List.drop_drop]
    congr 1
    omega
  rw [h1, List.take_add, h2]

lemma slice_append_drop (s : Chars) {a b : Nat} (h : a ≤ b) :
    slice s a b ++ s.drop b = s.drop a := by
  unfold slice
  have hb : s.drop b = (s.drop a).drop (b - a) := by
    rw [List.drop_drop]
    congr 1
    omega
  rw [hb, List.take_append_drop]

lemma matchAt_some {s : Chars} {p e : Nat} {url : Chars}
    (h : matchAt s p = some (e, url)) :
    p < e ∧ e ≤ s.length ∧ slice s p e = '(' :: (url ++ [')']) := by
  unfold matchAt at h
  split at h
  · cases h
  next c rest hd =>
    split at h
    case isFalse => cases h
    case isTrue hc =>
      subst hc
      split at h
      · cases h
      next k hk =>
        split at h
        · cases h
        next hre =>
          split at h
          · cases h
          next d tl hdd =>
            split at h
            case isFalse => cases h
            case isTrue hdc =>
              subst hdc
              simp only [Option.some.injEq, Prod.mk.injEq] at h
              obtain ⟨he, hu⟩ := h
              subst he
              subst hu
              set n := ((rest.drop k).takeWhile urlChar).length with hn
              have hplen : p < s.length := by
                apply List.length_lt_of_drop_ne_nil
                rw [hd]
                simp
              have hrest : s.length = p + rest.length + 1 := by
                have hlen := congrArg List.length hd
                rw [List.length_drop] at hlen
                simp at hlen
                omega
              have hdrop2 : rest.drop (k + n) = ')' :: tl := by
                rw [← List.drop_drop]
                exact hdd
              have hkn : k + n < rest.length := by
                apply List.length_lt_of_drop_ne_nil
                rw [hdrop2]
                simp
              refine ⟨by omega, by omega, ?_⟩
              have hslice : slice s p (p + 1 + k + n + 1) = ('(' :: rest).take (k + n + 2) := by
                unfold slice
                rw [hd]
                congr 1
                omega
              rw [hslice, List.take_succ_cons]
              congr 1
              have hsplit : k + n + 1 = (k + n) + 1 := rfl
              rw [hsplit, List.take_add, hdrop2]
              simp

lemma MChain.mono {s : Chars} {q : Nat} {ms : List PMatch} (h : MChain s q ms) {p : Nat}
    (hpq : p ≤ q) : MChain s p ms := by
  cases ms with
  | nil => trivial
  | cons m tl =>
    simp only [MChain] at h ⊢
    exact ⟨le_trans hpq h.1, h.2.1, h.2.2⟩

lemma mchain_findAux (s : Chars) : ∀ (fuel p : Nat), MChain s p (findAux s fuel p) := by
  intro fuel
  induction fuel with
  | zero => intro p; simp [findAux, MChain]
  | succ fuel ih =>
    intro p
    simp only [findAux]
    split
    · cases hm : matchAt s p with
      | none => simpa [hm] using (ih (p + 1)).mono (Nat.le_succ p)
      | some pr =>
        obtain ⟨e, url⟩ := pr
        simp only [MChain]
        exact ⟨le_refl p, hm, ih e⟩
    · simp [MChain]

lemma mchain_findMatches (s : Chars) : MChain s 0 (findMatches s) :=
  mchain_findAux s s.length 0

lemma mchain_append {s : Chars} :
    ∀ (ms₁ : List PMatch) {c : Nat} {m : PMatch} {ms₂ : List PMatch},
      MChain s c (ms₁ ++ m :: ms₂) →
      curAt c ms₁ ≤ m.start ∧ matchAt s m.start = some (m.stop, m.url) ∧ MChain s m.stop ms₂ := by
  intro ms₁
  induction ms₁ with
  | nil =>
    intro c m ms₂ h
    simp only [MChain, List.nil_append] at h
    exact ⟨h.1, h.2.1, h.2.2⟩
  | cons m' tl ih =>
    intro c m ms₂ h
    simp only [MChain, List.cons_append] at h
    simpa [curAt] using ih h.2.2

/-! ## Lemmas about the renderer loop -/

/-- An occurrence whose inferred label is empty is emitted as a verbatim
slice of the input reaching to the end of the match, and the loop continues
with the remaining matches from the match end. -/
lemma renderLoop_literal (s : Chars) (m : PMatch) (ms₂ : List PMatch) :
    ∀ (ms₁ : List PMatch) (c : Nat),
      labelFor s (curAt c ms₁) m.start = [] →
      ∃ pre, renderLoop s (ms₁ ++ m :: ms₂) c =
        pre ++ slice s (curAt c ms₁) m.stop ++ renderLoop s ms₂ m.stop := by
  intro ms₁
  induction ms₁ with
  | nil =>
    intro c h
    have hc : curAt c ([] : List PMatch) = c := rfl
    rw [hc] at h
    refine ⟨[], ?_⟩
    simp only [List.nil_append, renderLoop, labelFor] at *
    rw [h]
    simp [curAt]
  | cons m' tl ih =>
    intro c h
    have hc : curAt c (m' :: tl) = curAt m'.stop tl := rfl
    rw [hc] at h ⊢
    obtain ⟨pre, hpre⟩ := ih m'.stop h
    by_cases hl : (labelFor s c m'.start).isEmpty
    · refine ⟨slice s c m'.stop ++ pre, ?_⟩
      simp only [List.cons_append, List.append_eq, renderLoop]
      rw [if_pos hl, hpre]
      simp [List.append_assoc]
    · refine ⟨slice s c (labelStartFor s c m'.start) ++
        anchorFor m'.url (labelFor s c m'.start) ++ pre, ?_⟩
      simp only [List.cons_append, List.append_eq, renderLoop]
      rw [if_neg hl, hpre]
      simp [List.append_assoc]

/-- An occurrence whose inferred label is non-empty is replaced by the
anchor over exactly that label (the emitted input stops at the label
start), and the loop continues with the remaining matches. -/
lemma renderLoop_anchor (s : Chars) (m : PMatch) (ms₂ : List PMatch) :
    ∀ (ms₁ : List PMatch) (c : Nat),
      labelFor s (curAt c ms₁) m.start ≠ [] →
      ∃ pre, renderLoop s (ms₁ ++ m :: ms₂) c =
        pre ++ anchorFor m.url (labelFor s (curAt c ms₁) m.start) ++
          renderLoop s ms₂ m.stop := by
  intro ms₁
  induction ms₁ with
  | nil =>
    intro c h
    have hc : curAt c ([] : List PMatch) = c := rfl
    rw [hc] at h ⊢
    have hne : (labelFor s c m.start).isEmpty = false := by
      cases hl : (labelFor s c m.start).isEmpty with
      | false => rfl
      | true =>
        exfalso
        apply h
        simpa using hl
    refine ⟨slice s c (labelStartFor s c m.start), ?_⟩
    simp only [List.nil_append, renderLoop, hne, Bool.false_eq_true, if_false,
      List.append_assoc]
  | cons m' tl ih =>
    intro c h
    have hc : curAt c (m' :: tl) = curAt m'.stop tl := rfl
    rw [hc] at h ⊢
    obtain ⟨pre, hpre⟩ := ih m'.stop h
    by_cases hl : (labelFor s c m'.start).isEmpty
    · refine ⟨slice s c m'.stop ++ pre, ?_⟩
      simp only [List.cons_append, List.append_eq, renderLoop]
      rw [if_pos hl, hpre]
      simp [List.append_assoc]
    · refine ⟨slice s c (labelStartFor s c m'.start) ++
        anchorFor m'.url (labelFor s c m'.start) ++ pre, ?_⟩
      simp only [List.cons_append, List.append_eq, renderLoop]
      rw [if_neg hl, hpre]
      simp [List.append_assoc]

/-- The running-best fold keeps an upper bound of all inspected values and,
when it moves off the initial value, lands on the first list entry whose
value equals the final maximum (strict improvement means earlier entries
win exact ties). -/
lemma bestFold_spec (f : String → Int) :
    ∀ (l : List String) (b₀ : Int × String),
      b₀.1 ≤ (bestFold f l b₀).1 ∧
      (∀ c ∈ l, f c ≤ (bestFold f l b₀).1) ∧
      (bestFold f l b₀ = b₀ ∨
        (f (bestFold f l b₀).2 = (bestFold f l b₀).1 ∧ b₀.1 < (bestFold f l b₀).1 ∧
          ∃ l₁ l₂, l = l₁ ++ (bestFold f l b₀).2 :: l₂ ∧
            ∀ c ∈ l₁, f c < (bestFold f l b₀).1)) := by
  intro l
  induction l with
  | nil =>
    intro b₀
    exact ⟨le_refl _, by simp, Or.inl rfl⟩
  | cons c l ih =>
    intro b₀
    have hfold : bestFold f (c :: l) b₀ = bestFold f l (if b₀.1 < f c then (f c, c) else b₀) := rfl
    by_cases hc : b₀.1 < f c
    · have hstep : (if b₀.1 < f c then (f c, c) else b₀) = (f c, c) := if_pos hc
      rw [hfold, hstep]
      obtain ⟨h1, h2, h3⟩ := ih (f c, c)
      refine ⟨le_trans (le_of_lt hc) h1, ?_, ?_⟩
      · intro x hx
        rcases List.mem_cons.mp hx with rfl | hx'
        · exact h1
        · exact h2 x hx'
      · rcases h3 with heq | ⟨hf, hlt, l₁, l₂, hdec, hall⟩
        · right
          rw [heq]
          exact ⟨rfl, hc, [], l, rfl, by simp⟩
        · right
          refine ⟨hf, lt_trans hc hlt, c :: l₁, l₂, by
            rw [List.cons_append]
            exact congrArg (List.cons c) hdec, ?_⟩
          intro x hx
          rcases List.mem_cons.mp hx with rfl | hx'
          · exact hlt
          · exact hall x hx'
    · have hstep : (if b₀.1 < f c then (f c, c) else b₀) = b₀ := if_neg hc
      rw [hfold, hstep]
      obtain ⟨h1, h2, h3⟩ := ih b₀
      refine ⟨h1, ?_, ?_⟩
      · intro x hx
        rcases List.mem_cons.mp hx with rfl | hx'
        · exact le_trans (not_lt.mp hc) h1
        · exact h2 x hx'
      · rcases h3 with heq | ⟨hf, hlt, l₁, l₂, hdec, hall⟩
        · exact Or.inl heq
        · right
          refine ⟨hf, hlt, c :: l₁, l₂, by
            rw [List.cons_append]
            exact congrArg (List.cons c) hdec, ?_⟩
          intro x hx
          rcases List.mem_cons.mp hx with rfl | hx'
          · exact lt_of_le_of_lt (not_lt.mp hc) hlt
          · exact hall x hx'

/-! ## Claim theorems: the label extractor (C1 - C4) -/

/-- C1 counterexample: the input `"(https://example.org)"` contains a
recognized parenthesized-URL reference, yet the extractor's output is the
unchanged input: the URL appears as visible text and no anchor is built,
so "every recognized reference is rewritten into an anchor and no URL ever
appears as visible text" fails as stated. -/
theorem C1_url_visible_counterexample :
    findMatches "(https://example.org)".data ≠ [] ∧
    render_bio_paragraph_html "(https://example.org)" = "(https://example.org)" ∧
    hasSubS (render_bio_paragraph_html "(https://example.org)") "https://example.org" = true ∧
    hasSubS (render_bio_paragraph_html "(https://example.org)") "<a" = false := by
  refine ⟨by decide, by decide, by decide, by decide⟩

/-- C1 (amended): every recognized parenthesized-URL reference of a bio
ProseBlock whose inferred label (computed from the cumulative left context
at the cursor reached after the earlier matches) is non-empty is rewritten
into an anchor whose visible text is exactly that HTML-escaped inferred
label; a reference whose inferred label is empty is emitted literally, so
its URL stays visible. -/
theorem C1_recognized_reference_anchor_or_literal (s : String) (ms₁ : List PMatch)
    (m : PMatch) (ms₂ : List PMatch) (hsplit : findMatches s.data = ms₁ ++ m :: ms₂) :
    (labelFor s.data (curAt 0 ms₁) m.start ≠ [] →
      ∃ pre, (render_bio_paragraph_html s).data =
        pre ++ anchorFor m.url (labelFor s.data (curAt 0 ms₁) m.start) ++
          renderLoop s.data ms₂ m.stop) ∧
    (labelFor s.data (curAt 0 ms₁) m.start = [] →
      ∃ pre, (render_bio_paragraph_html s).data =
        pre ++ ('(' :: (m.url ++ [')'])) ++ renderLoop s.data ms₂ m.stop) := by
  have hdata : (render_bio_paragraph_html s).data = renderLoop s.data (findMatches s.data) 0 :=
    rfl
  constructor
  · intro hlab
    obtain ⟨pre, hpre⟩ := renderLoop_anchor s.data m ms₂ ms₁ 0 hlab
    refine ⟨pre, ?_⟩
    rw [hdata, hsplit, hpre]
  · intro hlab
    obtain ⟨pre, hpre⟩ := renderLoop_literal s.data m ms₂ ms₁ 0 hlab
    have hch := mchain_findMatches s.data
    rw [hsplit] at hch
    obtain ⟨hle, hmat, _⟩ := mchain_append ms₁ hch
    have h2 := matchAt_some hmat
    refine ⟨pre ++ slice s.data (curAt 0 ms₁) m.start, ?_⟩
    rw [hdata, hsplit, hpre, slice_split s.data hle (le_of_lt h2.1), h2.2.2]
    simp [List.append_assoc]

/-- C1 witness: the anchor branch applied to a concrete block. -/
theorem C1_recognized_reference_witness :
    (findMatches "Work at Acme (https://acme.example)".data =
      [] ++ (⟨13, 35, "https://acme.example".data⟩ : PMatch) :: []) ∧
    labelFor "Work at Acme (https://acme.example)".data (curAt 0 []) 13 ≠ [] ∧
    (∃ pre, (render_bio_paragraph_html "Work at Acme (https://acme.example)").data =
      pre ++ anchorFor "https://acme.example".data
          (labelFor "Work at Acme (https://acme.example)".data (curAt 0 []) 13) ++
        renderLoop "Work at Acme (https://acme.example)".data [] 35) :=
  ⟨by decide, by decide,
   (C1_recognized_reference_anchor_or_literal "Work at Acme (https://acme.example)" []
      ⟨13, 35, "https://acme.example".data⟩ [] (by decide)).1 (by decide)⟩

/-- C2 counterexample: on the URL-free block `"a < b"` the extractor
returns the input verbatim, not the HTML-escaped input the claim demands
(no escaping is applied to pass-through text). -/
theorem C2_escape_counterexample :
    findMatches "a < b".data = [] ∧
    render_bio_paragraph_html "a < b" = "a < b" ∧
    pyHtmlEscapeS "a < b" = "a &lt; b" ∧
    render_bio_paragraph_html "a < b" ≠ pyHtmlEscapeS "a < b" := by
  refine ⟨by decide, by decide, by decide, by decide⟩

/-- C2 (amended): for every ProseBlock containing no parenthesized URL the
extractor's output equals the input verbatim — text outside matches is
copied through unchanged, with no HTML escaping. -/
theorem C2_no_match_output_verbatim (s : String) (h : findMatches s.data = []) :
    render_bio_paragraph_html s = s := by
  have hdata : (render_bio_paragraph_html s).data = renderLoop s.data (findMatches s.data) 0 := rfl
  apply String.ext
  rw [hdata, h]
  simp [renderLoop]

/-- C2 witness: the theorem applied to a concrete URL-free block. -/
theorem C2_no_match_output_witness :
    findMatches "a < b & c".data = [] ∧ render_bio_paragraph_html "a < b & c" = "a < b & c" :=
  ⟨by decide, C2_no_match_output_verbatim "a < b & c" (by decide)⟩

/-- C3: the connector fold selects, over the cumulative left context, the
largest rightmost-occurrence index of any connector, and the selected
connector is the first of the priority list attaining that index (earlier
entries win exact ties); on the spec's example the inferred label is
`Example Institute` via `" at the "`, the anchor's visible text is exactly
that label and its href the raw URL. -/
theorem C3_connector_argmax :
    (∀ absLeft : Chars,
      (∀ c ∈ connectors, rfindZ absLeft c.data ≤ (chooseSplit absLeft).1) ∧
      (0 ≤ (chooseSplit absLeft).1 →
        rfindZ absLeft (chooseSplit absLeft).2.data = (chooseSplit absLeft).1 ∧
        ∃ l₁ l₂, connectors = l₁ ++ (chooseSplit absLeft).2 :: l₂ ∧
          ∀ c ∈ l₁, rfindZ absLeft c.data < (chooseSplit absLeft).1)) ∧
    render_bio_paragraph_html "He studied at the Example Institute (https://example.org/inst)" =
      "He studied at the <a href=\"https://example.org/inst\">Example Institute</a>" := by
  constructor
  · intro absLeft
    have hcs : chooseSplit absLeft =
        bestFold (fun conn => rfindZ absLeft conn.data) connectors (-1, "") := rfl
    obtain ⟨h1, h2, h3⟩ := bestFold_spec (fun conn => rfindZ absLeft conn.data) connectors (-1, "")
    constructor
    · intro c hc
      rw [hcs]
      exact h2 c hc
    · intro hpos
      rw [hcs] at hpos ⊢
      rcases h3 with heq | ⟨hf, hlt, l₁, l₂, hdec, hall⟩
      · rw [heq] at hpos
        exact absurd hpos (by decide)
      · exact ⟨hf, l₁, l₂, hdec, hall⟩
  · decide

/-- C3 witness: the bound applied to the example's left context and the
winning connector. -/
theorem C3_connector_argmax_witness :
    (" at the " ∈ connectors) ∧
    rfindZ "He studied at the Example Institute ".data " at the ".data ≤
      (chooseSplit "He studied at the Example Institute ".data).1 :=
  ⟨by decide, (C3_connector_argmax.1 "He studied at the Example Institute ".data).1
    " at the " (by decide)⟩

/-- C4: a match whose inferred label (at the cursor reached after the
earlier matches) trims to empty is emitted as a verbatim input slice ending
in the literal parenthesized URL — not linkified — and the loop continues
with the matches after it; in particular `"(https://example.org)"` is
returned unchanged. -/
theorem C4_empty_label_literal :
    (∀ (s : String) (ms₁ : List PMatch) (m : PMatch) (ms₂ : List PMatch),
        findMatches s.data = ms₁ ++ m :: ms₂ →
        labelFor s.data (curAt 0 ms₁) m.start = [] →
        ∃ pre, (render_bio_paragraph_html s).data =
          pre ++ (slice s.data (curAt 0 ms₁) m.start ++ ('(' :: (m.url ++ [')']))) ++
            renderLoop s.data ms₂ m.stop) ∧
    render_bio_paragraph_html "(https://example.org)" = "(https://example.org)" := by
  constructor
  · intro s ms₁ m ms₂ hsplit hlab
    obtain ⟨pre, hpre⟩ := renderLoop_literal s.data m ms₂ ms₁ 0 hlab
    have hch := mchain_findMatches s.data
    rw [hsplit] at hch
    obtain ⟨hle, hmat, _⟩ := mchain_append ms₁ hch
    have h2 := matchAt_some hmat
    refine ⟨pre, ?_⟩
    have hdata : (render_bio_paragraph_html s).data = renderLoop s.data (findMatches s.data) 0 := rfl
    rw [hdata, hsplit, hpre, slice_split s.data hle (le_of_lt h2.1), h2.2.2]
  · decide

/-- C4 witness: the theorem applied to the concrete block
`"(https://example.org)"`, whose single match has an empty label. -/
theorem C4_empty_label_literal_witness :
    (findMatches "(https://example.org)".data =
      [] ++ (⟨0, 21, "https://example.org".data⟩ : PMatch) :: []) ∧
    labelFor "(https://example.org)".data (curAt 0 []) 0 = [] ∧
    (∃ pre, (render_bio_paragraph_html "(https://example.org)").data =
      pre ++ (slice "(https://example.org)".data (curAt 0 []) 0 ++
          ('(' :: ("https://example.org".data ++ [')']))) ++
        renderLoop "(https://example.org)".data [] 21) :=
  ⟨by decide, by decide,
   C4_empty_label_literal.1 "(https://example.org)" [] ⟨0, 21, "https://example.org".data⟩ []
     (by decide) (by decide)⟩

/-! ## Claim theorems: the author meta line (C5) -/

lemma intersperse_eq_flatMap {α : Type} (sep : α) :
    ∀ (as : List α) (a : α),
      List.intersperse sep (a :: as) = a :: as.flatMap (fun x => [sep, x]) := by
  intro as
  induction as with
  | nil => intro a; rfl
  | cons b t ih =>
    intro a
    show a :: sep :: List.intersperse sep (b :: t) = _
    rw [ih b]
    rfl

lemma metaLoop_pos (get : String → Option String) :
    ∀ (l : List String) (i : Nat),
      metaLoop get (i + 1) l = l.flatMap (fun n => [Node.text ", ", authorNode get n]) := by
  intro l
  induction l with
  | nil => intro i; rfl
  | cons n t ih =>
    intro i
    simp [metaLoop, ih (i + 1)]

lemma flatMap_map_pair {α β : Type} (f : α → β) (sep : β) (t : List α) :
    (t.map f).flatMap (fun x => [sep, x]) = t.flatMap (fun a => [sep, f a]) := by
  induction t with
  | nil => rfl
  | cons a t ih => simp [ih]

lemma metaLoop_zero (get : String → Option String) (l : List String) :
    metaLoop get 0 l = List.intersperse (Node.text ", ") (l.map (authorNode get)) := by
  cases l with
  | nil => rfl
  | cons n t =>
    rw [List.map_cons, intersperse_eq_flatMap, flatMap_map_pair]
    simp [metaLoop, metaLoop_pos]

lemma author_links_fold_ne (n : String) :
    ∀ (rows : List (String × String)) (acc : Option String),
      (∀ u, acc = some u → u ≠ "") →
      ∀ u,
        rows.foldl
            (fun acc r =>
              if pyStripS r.1 ≠ "" ∧ pyStripS r.2 ≠ "" ∧ pyStripS r.1 = n then
                some (pyStripS r.2)
              else acc) acc = some u →
          u ≠ "" := by
  intro rows
  induction rows with
  | nil => intro acc hacc u h; exact hacc u h
  | cons r t ih =>
    intro acc hacc u h
    refine ih _ ?_ u h
    intro v hv
    have hv' : (if pyStripS r.1 ≠ "" ∧ pyStripS r.2 ≠ "" ∧ pyStripS r.1 = n then
        some (pyStripS r.2) else acc) = some v := hv
    by_cases hc : pyStripS r.1 ≠ "" ∧ pyStripS r.2 ≠ "" ∧ pyStripS r.1 = n
    · rw [if_pos hc] at hv'
      obtain rfl : pyStripS r.2 = v := by injection hv'
      exact hc.2.1
    · rw [if_neg hc] at hv'
      exact hacc v hv'

lemma load_author_links_values_ne (rows : List (String × String)) (n u : String)
    (h : load_author_links (some rows) n = some u) : u ≠ "" :=
  author_links_fold_ne n rows none (by intro v hv; cases hv) u h

/-- C5: the meta line treats semicolons as commas, splits the author string
into trimmed non-empty names in order, renders each name as an anchor
exactly when it is present in the author LinkTable (whose stored values are
never empty) and as plain text otherwise, joins names with `", "`, and
appends `" · " + year` when both fields are non-empty, the year alone when
only the year is, and nothing otherwise; on the spec's example the output
is plain `A. One`, a separator, an anchor for `B. Two`, then `" · 2024"`. -/
theorem C5_author_meta_line :
    (∀ (rows : List (String × String)) (n u : String),
        load_author_links (some rows) n = some u → u ≠ "") ∧
    (∀ (rows : List (String × String)) (n : String),
      (∃ u, load_author_links (some rows) n = some u ∧
          authorNode (load_author_links (some rows)) n = .tag "a" [("href", u)] [.text n]) ∨
      (load_author_links (some rows) n = none ∧
          authorNode (load_author_links (some rows)) n = .text n)) ∧
    (∀ (authors year : String) (get : String → Option String),
      metaNodes authors year get =
        List.intersperse (Node.text ", ") ((splitAuthors authors).map (authorNode get)) ++
          (if authors ≠ "" ∧ year ≠ "" then [Node.text (" · " ++ year)]
           else if year ≠ "" then [Node.text year] else [])) ∧
    metaNodes "A. One, B. Two" "2024"
        (load_author_links (some [("B. Two", "https://b.example")])) =
      [Node.text "A. One", Node.text ", ",
       Node.tag "a" [("href", "https://b.example")] [Node.text "B. Two"],
       Node.text " · 2024"] ∧
    serializeNodes (metaNodes "A. One, B. Two" "2024"
        (load_author_links (some [("B. Two", "https://b.example")]))) =
      "A. One, <a href=\"https://b.example\">B. Two</a> · 2024" := by
  refine ⟨load_author_links_values_ne, ?_, ?_, by rfl, by rfl⟩
  · intro rows n
    cases hg : load_author_links (some rows) n with
    | none =>
      right
      exact ⟨rfl, by simp [authorNode, hg]⟩
    | some u =>
      left
      have hu := load_author_links_values_ne rows n u hg
      exact ⟨u, rfl, by simp [authorNode, hg, hu]⟩
  · intro authors year get
    unfold metaNodes
    by_cases ha : authors = ""
    · subst ha
      have h0 : splitAuthors "" = [] := rfl
      rw [h0]
      simp
    · rw [if_pos ha, metaLoop_zero]

/-- C5 witness: a concrete link-table lookup produces a non-empty URL. -/
theorem C5_author_meta_line_witness :
    load_author_links (some [("B. Two", "https://b.example")]) "B. Two" =
      some "https://b.example" ∧
    "https://b.example" ≠ "" :=
  ⟨by decide,
   C5_author_meta_line.1 [("B. Two", "https://b.example")] "B. Two" "https://b.example"
     (by decide)⟩

/-! ## Claim theorems: asset folder matching (C6) -/

lemma char_toNat_inj {a b : Char} (h : a.toNat = b.toNat) : a = b :=
  Char.eq_of_val_eq (UInt32.ext h)

lemma lexLe_refl : ∀ a : Chars, lexLe a a = true := by
  intro a
  induction a with
  | nil => rfl
  | cons c t ih => simp [lexLe, ih]

lemma lexLe_total : ∀ a b : Chars, lexLe a b = true ∨ lexLe b a = true := by
  intro a
  induction a with
  | nil => intro b; left; rfl
  | cons c t ih =>
    intro b
    cases b with
    | nil => right; rfl
    | cons d u =>
      by_cases hcd : c = d
      · subst hcd
        rcases ih u with h | h
        · left; simp [lexLe, h]
        · right; simp [lexLe, h]
      · have hne : c.toNat ≠ d.toNat := fun e => hcd (char_toNat_inj e)
        rcases Nat.lt_or_ge c.toNat d.toNat with h | h
        · left
          simp only [lexLe]
          rw [if_neg hcd]
          exact decide_eq_true h
        · right
          have hlt : d.toNat < c.toNat := by omega
          simp only [lexLe]
          rw [if_neg (fun e => hcd e.symm)]
          exact decide_eq_true hlt

lemma lexLe_trans : ∀ a b c : Chars, lexLe a b = true → lexLe b c = true → lexLe a c = true := by
  intro a
  induction a with
  | nil => intro b c _ _; rfl
  | cons x xs ih =>
    intro b c h1 h2
    cases b with
    | nil => simp [lexLe] at h1
    | cons y ys =>
      cases c with
      | nil => simp [lexLe] at h2
      | cons z zs =>
        simp only [lexLe] at h1 h2 ⊢
        by_cases hxy : x = y
        · subst hxy
          rw [if_pos rfl] at h1
          by_cases hyz : x = z
          · subst hyz
            rw [if_pos rfl] at h2 ⊢
            exact ih ys zs h1 h2
          · rw [if_neg hyz] at h2 ⊢
            exact h2
        · rw [if_neg hxy] at h1
          have hx : x.toNat < y.toNat := of_decide_eq_true h1
          by_cases hyz : y = z
          · subst hyz
            rw [if_neg hxy]
            exact h1
          · rw [if_neg hyz] at h2
            have hy : y.toNat < z.toNat := of_decide_eq_true h2
            have hxz : x.toNat < z.toNat := lt_trans hx hy
            have hxzne : x ≠ z := by
              intro e
              subst e
              omega
            rw [if_neg hxzne]
            exact decide_eq_true hxz

lemma lexLe_antisymm : ∀ a b : Chars, lexLe a b = true → lexLe b a = true → a = b := by
  intro a
  induction a with
  | nil =>
    intro b h1 h2
    cases b with
    | nil => rfl
    | cons d u => simp [lexLe] at h2
  | cons x xs ih =>
    intro b h1 h2
    cases b with
    | nil => simp [lexLe] at h1
    | cons y ys =>
      simp only [lexLe] at h1 h2
      by_cases hxy : x = y
      · subst hxy
        rw [if_pos rfl] at h1 h2
        rw [ih ys h1 h2]
      · rw [if_neg hxy] at h1
        rw [if_neg (fun e => hxy e.symm)] at h2
        have hx : x.toNat < y.toNat := of_decide_eq_true h1
        have hy : y.toNat < x.toNat := of_decide_eq_true h2
        omega

/-- The head of the sorted list is a member and a `lexLe`-minimum (by key). -/
lemma sorted_head_min {α : Type} (key : α → Chars) (l : List α) (x : α)
    (h : (List.insertionSort (fun a b => lexLe (key a) (key b) = true) l).head? = some x) :
    x ∈ l ∧ ∀ y ∈ l, lexLe (key x) (key y) = true := by
  have hsorted : List.Sorted (fun a b => lexLe (key a) (key b) = true)
      (List.insertionSort (fun a b => lexLe (key a) (key b) = true) l) :=
    @List.sorted_insertionSort α (fun a b => lexLe (key a) (key b) = true) _
      ⟨fun a b => lexLe_total (key a) (key b)⟩
      ⟨fun a b c => lexLe_trans (key a) (key b) (key c)⟩ l
  have hperm := List.perm_insertionSort (fun a b => lexLe (key a) (key b) = true) l
  cases hs : List.insertionSort (fun a b => lexLe (key a) (key b) = true) l with
  | nil => rw [hs] at h; cases h
  | cons a t =>
    rw [hs] at h hsorted hperm
    obtain rfl : a = x := by injection h
    constructor
    · exact hperm.mem_iff.mp (List.mem_cons_self a t)
    · intro y hy
      rcases List.mem_cons.mp (hperm.mem_iff.mpr hy) with rfl | hy'
      · exact lexLe_refl _
      · exact List.rel_of_sorted_cons hsorted y hy'

lemma sorted_head_none {α : Type} (key : α → Chars) (l : List α)
    (h : (List.insertionSort (fun a b => lexLe (key a) (key b) = true) l).head? = none) :
    l = [] := by
  have hperm := List.perm_insertionSort (fun a b => lexLe (key a) (key b) = true) l
  rw [List.head?_eq_none_iff] at h
  rw [h] at hperm
  exact (List.perm_nil.mp hperm.symm).symm ▸ rfl

lemma findSubFrom_single_append {Q : Chars} {c : Char} (h : c ∉ Q) (t : Chars) :
    ∀ i, findSubFrom (Q ++ c :: t) [c] i = some (Q.length + i) := by
  induction Q with
  | nil =>
    intro i
    simp [findSubFrom, List.isPrefixOf]
  | cons q Qt ih =>
    have hq : c ≠ q := fun e => h (e ▸ List.mem_cons_self q Qt)
    have hmem : c ∉ Qt := fun e => h (List.mem_cons_of_mem q e)
    intro i
    show findSubFrom (q :: (Qt ++ c :: t)) [c] i = some (Qt.length + 1 + i)
    rw [findSubFrom]
    have hpre : ([c].isPrefixOf (q :: (Qt ++ c :: t))) = false := by
      simp [List.isPrefixOf]
      intro e
      exact hq e
    rw [hpre]
    simp only [Bool.false_eq_true, if_false]
    rw [ih hmem (i + 1)]
    congr 1
    omega

lemma findSub_single_append {Q : Chars} {c : Char} (h : c ∉ Q) (t : Chars) :
    findSub (Q ++ c :: t) [c] = some Q.length := by
  have := findSubFrom_single_append h t 0
  simpa [findSub] using this

lemma pySplitAux_nil (fuel : Nat) : pySplitAux ['*'] fuel [] = [[]] := by
  cases fuel with
  | zero => rfl
  | succ f => simp [pySplitAux, findSub, findSubFrom]

/-- The glob `"<id>_*"` for a wildcard-free id matches exactly the names
starting with `"<id>_"`. -/
lemma globMatch_id_star (pid name : String) (h : '*' ∉ pid.data) :
    globMatch (pid ++ "_*").data name.data = (pid ++ "_").data.isPrefixOf name.data := by
  have hdata : (pid ++ "_*").data = (pid.data ++ ['_']) ++ '*' :: [] := by
    rw [String.data_append]
    simp
  have hQ : '*' ∉ pid.data ++ ['_'] := by
    intro hmem
    rcases List.mem_append.mp hmem with h1 | h2
    · exact h h1
    · simp at h2
  have hdrop : ((pid.data ++ ['_']) ++ '*' :: []).drop ((pid.data ++ ['_']).length + 1) = [] := by
    apply List.drop_of_length_le
    simp
  have hsegs : globSegs (pid ++ "_*").data = [pid.data ++ ['_'], []] := by
    have hlen : ((pid.data ++ ['_']) ++ '*' :: []).length = (pid.data ++ ['_']).length + 1 := by
      simp
    unfold globSegs pySplit
    rw [hdata, hlen]
    simp only [pySplitAux, findSub_single_append hQ]
    rw [List.take_left]
    simp only [List.length_singleton]
    rw [hdrop, pySplitAux_nil]
  have hpidu : (pid ++ "_").data = pid.data ++ ['_'] := by
    rw [String.data_append]
  unfold globMatch
  rw [hsegs, hpidu]
  simp [matchMids, List.isSuffixOf]

lemma find_folder_some {folders : List PubFolder} {pid : String} {f : PubFolder}
    (h : find_publication_folder folders pid = some f) :
    f ∈ folders ∧ globMatch (pid ++ "_*").data f.name.data = true ∧
      ∀ g ∈ folders, globMatch (pid ++ "_*").data g.name.data = true →
        lexLe f.name.data g.name.data = true := by
  obtain ⟨hmem, hmin⟩ := sorted_head_min (fun fo : PubFolder => fo.name.data)
    (folders.filter (fun fo => globMatch (pid ++ "_*").data fo.name.data)) f h
  rw [List.mem_filter] at hmem
  exact ⟨hmem.1, hmem.2, fun g hg hmatch => hmin g (List.mem_filter.mpr ⟨hg, hmatch⟩)⟩

lemma find_folder_none_iff (folders : List PubFolder) (pid : String) :
    find_publication_folder folders pid = none ↔
      ∀ f ∈ folders, globMatch (pid ++ "_*").data f.name.data = false := by
  constructor
  · intro h
    have hnil := sorted_head_none (fun fo : PubFolder => fo.name.data)
      (folders.filter (fun fo => globMatch (pid ++ "_*").data fo.name.data)) h
    intro f hf
    by_contra hx
    have hmemf : f ∈ folders.filter (fun fo => globMatch (pid ++ "_*").data fo.name.data) :=
      List.mem_filter.mpr ⟨hf, by
        cases hgm : globMatch (pid ++ "_*").data f.name.data with
        | true => rfl
        | false => exact absurd hgm hx⟩
    rw [hnil] at hmemf
    cases hmemf
  · intro h
    have hfil : folders.filter (fun fo => globMatch (pid ++ "_*").data fo.name.data) = [] :=
      List.filter_eq_nil_iff.mpr (fun a ha => by rw [h a ha]; simp)
    show (sortFolders _).head? = none
    rw [hfil]
    rfl

lemma find_folder_perm {l₁ l₂ : List PubFolder} (pid : String) (hp : l₁.Perm l₂)
    (hn : (l₁.map PubFolder.name).Nodup) :
    find_publication_folder l₁ pid = find_publication_folder l₂ pid := by
  cases h1 : find_publication_folder l₁ pid with
  | none =>
    have h2 : find_publication_folder l₂ pid = none :=
      (find_folder_none_iff l₂ pid).mpr
        (fun f hf => ((find_folder_none_iff l₁ pid).mp h1) f (hp.mem_iff.mpr hf))
    rw [h2]
  | some f₁ =>
    cases h2 : find_publication_folder l₂ pid with
    | none =>
      exfalso
      have hall := (find_folder_none_iff l₂ pid).mp h2
      obtain ⟨hmem, hmatch, _⟩ := find_folder_some h1
      have := hall f₁ (hp.mem_iff.mp hmem)
      rw [this] at hmatch
      cases hmatch
    | some f₂ =>
      obtain ⟨hm1, hg1, hmin1⟩ := find_folder_some h1
      obtain ⟨hm2, hg2, hmin2⟩ := find_folder_some h2
      have hm2' : f₂ ∈ l₁ := hp.mem_iff.mpr hm2
      have h12 : lexLe f₁.name.data f₂.name.data = true := hmin1 f₂ hm2' hg2
      have h21 : lexLe f₂.name.data f₁.name.data = true := hmin2 f₁ (hp.mem_iff.mp hm1) hg1
      have hname : f₁.name = f₂.name := String.ext (lexLe_antisymm _ _ h12 h21)
      rw [List.inj_on_of_nodup_map hn hm1 hm2' hname]

lemma first_file_some {files : List (String × String)} {pat : String} {r : String × String}
    (h : first_file files pat = some r) :
    r ∈ files ∧ globMatch pat.data r.1.data = true ∧
      ∀ q ∈ files, globMatch pat.data q.1.data = true → lexLe r.1.data q.1.data = true := by
  obtain ⟨hmem, hmin⟩ := sorted_head_min (fun q : String × String => q.1.data)
    (files.filter (fun q => globMatch pat.data q.1.data)) r h
  rw [List.mem_filter] at hmem
  exact ⟨hmem.1, hmem.2, fun q hq hmatch => hmin q (List.mem_filter.mpr ⟨hq, hmatch⟩)⟩

lemma first_file_none_iff (files : List (String × String)) (pat : String) :
    first_file files pat = none ↔ ∀ q ∈ files, globMatch pat.data q.1.data = false := by
  constructor
  · intro h
    have hnil := sorted_head_none (fun q : String × String => q.1.data)
      (files.filter (fun q => globMatch pat.data q.1.data)) h
    intro q hq
    by_contra hx
    have hmemq : q ∈ files.filter (fun q => globMatch pat.data q.1.data) :=
      List.mem_filter.mpr ⟨hq, by
        cases hgm : globMatch pat.data q.1.data with
        | true => rfl
        | false => exact absurd hgm hx⟩
    rw [hnil] at hmemq
    cases hmemq
  · intro h
    have hfil : files.filter (fun q => globMatch pat.data q.1.data) = [] :=
      List.filter_eq_nil_iff.mpr (fun a ha => by rw [h a ha]; simp)
    show (sortFiles _).head? = none
    rw [hfil]
    rfl

/-- C6: the Asset Folder Matcher returns the folder whose name is the
code-point-least among those matching `"<id>_"` (for a wildcard-free id the
glob means exactly "starts with `<id>_`"), `none` when nothing matches, and
the result is independent of directory listing order; within a folder,
`first_file` likewise returns the lexicographically-first file matching the
glob, with absence giving `none`; for identifier `"3"` over the folders
`3_alpha`, `3_beta`, `2_gamma`, exactly `3_alpha` is selected. -/
theorem C6_asset_folder_matcher :
    find_publication_folder [⟨"3_alpha", []⟩, ⟨"3_beta", []⟩, ⟨"2_gamma", []⟩] "3" =
      some ⟨"3_alpha", []⟩ ∧
    (∀ (folders : List PubFolder) (pid : String) (f : PubFolder),
      find_publication_folder folders pid = some f →
        f ∈ folders ∧ globMatch (pid ++ "_*").data f.name.data = true ∧
          ∀ g ∈ folders, globMatch (pid ++ "_*").data g.name.data = true →
            lexLe f.name.data g.name.data = true) ∧
    (∀ (folders : List PubFolder) (pid : String),
      find_publication_folder folders pid = none ↔
        ∀ f ∈ folders, globMatch (pid ++ "_*").data f.name.data = false) ∧
    (∀ (pid name : String), '*' ∉ pid.data →
      globMatch (pid ++ "_*").data name.data = (pid ++ "_").data.isPrefixOf name.data) ∧
    (∀ (l₁ l₂ : List PubFolder) (pid : String), l₁.Perm l₂ →
      (l₁.map PubFolder.name).Nodup →
      find_publication_folder l₁ pid = find_publication_folder l₂ pid) ∧
    (∀ (files : List (String × String)) (pat : String) (r : String × String),
      first_file files pat = some r →
        r ∈ files ∧ globMatch pat.data r.1.data = true ∧
          ∀ q ∈ files, globMatch pat.data q.1.data = true →
            lexLe r.1.data q.1.data = true) ∧
    (∀ (files : List (String × String)) (pat : String),
      first_file files pat = none ↔ ∀ q ∈ files, globMatch pat.data q.1.data = false) :=
  ⟨by decide,
   fun _ _ _ h => find_folder_some h,
   find_folder_none_iff,
   globMatch_id_star,
   fun _ _ pid hp hn => find_folder_perm pid hp hn,
   fun _ _ _ h => first_file_some h,
   first_file_none_iff⟩

/-- C6 witness: the minimality bound applied to the spec's example. -/
theorem C6_asset_folder_matcher_witness :
    find_publication_folder [⟨"3_alpha", []⟩, ⟨"3_beta", []⟩, ⟨"2_gamma", []⟩] "3" =
      some ⟨"3_alpha", []⟩ ∧
    ((⟨"3_alpha", []⟩ : PubFolder) ∈
        [(⟨"3_alpha", []⟩ : PubFolder), ⟨"3_beta", []⟩, ⟨"2_gamma", []⟩] ∧
      globMatch ("3" ++ "_*").data (PubFolder.name ⟨"3_alpha", []⟩).data = true ∧
      ∀ g ∈ [(⟨"3_alpha", []⟩ : PubFolder), ⟨"3_beta", []⟩, ⟨"2_gamma", []⟩],
        globMatch ("3" ++ "_*").data g.name.data = true →
          lexLe (PubFolder.name ⟨"3_alpha", []⟩).data g.name.data = true) :=
  ⟨by decide,
   C6_asset_folder_matcher.2.1 [⟨"3_alpha", []⟩, ⟨"3_beta", []⟩, ⟨"2_gamma", []⟩] "3"
     ⟨"3_alpha", []⟩ (by decide)⟩

/-! ## Claim theorems: the social-links navigation (C7) -/

lemma load_social_links_values_ne (file : Option (List (String × String))) (label u : String)
    (h : load_social_links file label = some u) : u ≠ "" := by
  have hbase : ∀ v, (if label = "Email" then some ("mailto:" ++ EMAIL) else none) = some v →
      v ≠ "" := by
    intro v hv
    by_cases he : label = "Email"
    · rw [if_pos he] at hv
      obtain rfl : "mailto:" ++ EMAIL = v := by injection hv
      decide
    · rw [if_neg he] at hv
      cases hv
  cases file with
  | none => exact hbase u h
  | some rows => exact author_links_fold_ne label rows _ hbase u h

lemma social_fold_isSome (label : String) :
    ∀ (rows : List (String × String)) (acc : Option String),
      ((rows.foldl
          (fun acc r =>
            if pyStripS r.1 ≠ "" ∧ pyStripS r.2 ≠ "" ∧ pyStripS r.1 = label then
              some (pyStripS r.2)
            else acc) acc).isSome = true ↔
        acc.isSome = true ∨
          ∃ r ∈ rows, pyStripS r.1 = label ∧ pyStripS r.1 ≠ "" ∧ pyStripS r.2 ≠ "") := by
  intro rows
  induction rows with
  | nil => intro acc; simp
  | cons r t ih =>
    intro acc
    rw [List.foldl_cons, ih]
    have hstep : ((if pyStripS r.1 ≠ "" ∧ pyStripS r.2 ≠ "" ∧ pyStripS r.1 = label then
        some (pyStripS r.2) else acc).isSome = true ↔
          acc.isSome = true ∨ (pyStripS r.1 = label ∧ pyStripS r.1 ≠ "" ∧ pyStripS r.2 ≠ "")) := by
      by_cases hc : pyStripS r.1 ≠ "" ∧ pyStripS r.2 ≠ "" ∧ pyStripS r.1 = label
      · rw [if_pos hc]
        simp only [Option.isSome_some]
        constructor
        · intro _
          exact Or.inr ⟨hc.2.2, hc.1, hc.2.1⟩
        · intro _
          trivial
      · rw [if_neg hc]
        constructor
        · intro hs
          exact Or.inl hs
        · intro hs
          rcases hs with hs | ⟨h1, h2, h3⟩
          · exact hs
          · exact absurd ⟨h2, h3, h1⟩ hc
    constructor
    · intro hs
      rcases hs with hs | ⟨q, hq, hcond⟩
      · rcases hstep.mp hs with hs' | hc'
        · exact Or.inl hs'
        · exact Or.inr ⟨r, List.mem_cons_self r t, hc'⟩
      · exact Or.inr ⟨q, List.mem_cons_of_mem r hq, hcond⟩
    · intro hs
      rcases hs with hs | ⟨q, hq, hcond⟩
      · exact Or.inl (hstep.mpr (Or.inl hs))
      · rcases List.mem_cons.mp hq with rfl | hq'
        · exact Or.inl (hstep.mpr (Or.inr hcond))
        · exact Or.inr ⟨q, hq', hcond⟩

lemma social_present_iff (rows : List (String × String)) (label : String) :
    (load_social_links (some rows) label).isSome = true ↔
      label = "Email" ∨
        ∃ r ∈ rows, pyStripS r.1 = label ∧ pyStripS r.1 ≠ "" ∧ pyStripS r.2 ≠ "" := by
  have hfold := social_fold_isSome label rows
    (if label = "Email" then some ("mailto:" ++ EMAIL) else none)
  have hbase : ((if label = "Email" then some ("mailto:" ++ EMAIL) else none).isSome = true ↔
      label = "Email") := by
    by_cases he : label = "Email"
    · simp [he]
    · simp [he]
  have hload : (load_social_links (some rows) label).isSome =
      (rows.foldl
        (fun acc r =>
          if pyStripS r.1 ≠ "" ∧ pyStripS r.2 ≠ "" ∧ pyStripS r.1 = label then
            some (pyStripS r.2)
          else acc)
        (if label = "Email" then some ("mailto:" ++ EMAIL) else none)).isSome := rfl
  rw [hload, hfold, hbase]

lemma entries_labels_aux (get : String → Option String)
    (hne : ∀ l u, get l = some u → u ≠ "") :
    ∀ ord : List String,
      (ord.filterMap (fun label =>
        match get label with
        | none => none
        | some href => if href = "" then none else some (label, href))).map Prod.fst =
        ord.filter (fun l => (get l).isSome) := by
  intro ord
  induction ord with
  | nil => rfl
  | cons a t ih =>
    cases hg : get a with
    | none => simp [List.filterMap_cons, List.filter_cons, hg, ih]
    | some u =>
      have hu := hne a u hg
      simp [List.filterMap_cons, List.filter_cons, hg, hu, ih]

/-- C7: the social navigation lists exactly the labels of the resolved
LinkTable in the fixed preferred order (independent of source-row order),
the implicit `Email` mailto entry is always present — an empty row cannot
remove it while a non-empty `Email` row overrides it, last duplicate row
winning — and only the `CV` anchor carries the `download` attribute; a
table with only `LinkedIn` renders exactly Email then LinkedIn. -/
theorem C7_social_nav :
    (∀ rows : List (String × String),
      (socialEntries (load_social_links (some rows))).map Prod.fst =
        socialOrder.filter (fun l => (load_social_links (some rows) l).isSome)) ∧
    (∀ (rows : List (String × String)) (label : String),
      (load_social_links (some rows) label).isSome = true ↔
        label = "Email" ∨
          ∃ r ∈ rows, pyStripS r.1 = label ∧ pyStripS r.1 ≠ "" ∧ pyStripS r.2 ≠ "") ∧
    (∀ rows : List (String × String),
      ∃ h, load_social_links (some rows) "Email" = some h ∧ h ≠ "") ∧
    (∀ l h : String, hasDownload (socialAnchor (l, h)) = true ↔ l = "CV") ∧
    (∀ rows₁ rows₂ : List (String × String), rows₁.Perm rows₂ →
      (socialEntries (load_social_links (some rows₁))).map Prod.fst =
        (socialEntries (load_social_links (some rows₂))).map Prod.fst) ∧
    socialEntries (load_social_links (some [("LinkedIn", "https://l.example")])) =
      [("Email", "mailto:skobelev@uchicago.edu"), ("LinkedIn", "https://l.example")] ∧
    load_social_links (some [("Email", "")]) "Email" = some ("mailto:" ++ EMAIL) ∧
    load_social_links (some [("Email", "https://e1"), ("Email", "https://e2")]) "Email" =
      some "https://e2" := by
  have hlabels : ∀ rows : List (String × String),
      (socialEntries (load_social_links (some rows))).map Prod.fst =
        socialOrder.filter (fun l => (load_social_links (some rows) l).isSome) :=
    fun rows => entries_labels_aux _ (load_social_links_values_ne (some rows)) socialOrder
  refine ⟨hlabels, social_present_iff, ?_, ?_, ?_, by decide, by decide, by decide⟩
  · intro rows
    cases hg : load_social_links (some rows) "Email" with
    | none =>
      exfalso
      have := (social_present_iff rows "Email").mpr (Or.inl rfl)
      rw [hg] at this
      cases this
    | some u => exact ⟨u, rfl, load_social_links_values_ne (some rows) "Email" u hg⟩
  · intro l h
    by_cases hl : l = "CV"
    · subst hl
      simp [hasDownload, socialAnchor]
    · simp only [hasDownload, socialAnchor]
      rw [if_neg hl]
      constructor
      · intro hcon
        exfalso
        revert hcon
        simp [List.contains_cons]
      · intro hcon
        exact absurd hcon hl
  · intro rows₁ rows₂ hperm
    rw [hlabels rows₁, hlabels rows₂]
    apply List.filter_congr
    intro l _
    have h1 := social_present_iff rows₁ l
    have h2 := social_present_iff rows₂ l
    have hiff : ((load_social_links (some rows₁) l).isSome = true ↔
        (load_social_links (some rows₂) l).isSome = true) := by
      rw [h1, h2]
      constructor
      · rintro (he | ⟨r, hr, hc⟩)
        · exact Or.inl he
        · exact Or.inr ⟨r, hperm.mem_iff.mp hr, hc⟩
      · rintro (he | ⟨r, hr, hc⟩)
        · exact Or.inl he
        · exact Or.inr ⟨r, hperm.mem_iff.mpr hr, hc⟩
    cases hx : (load_social_links (some rows₁) l).isSome with
    | true => exact (hiff.mp hx).symm
    | false =>
      cases hy : (load_social_links (some rows₂) l).isSome with
      | true =>
        rw [← hx]
        exact absurd (hiff.mpr hy) (by rw [hx]; simp)
      | false => rfl

/-- C7 witness: the label list is invariant under a concrete row swap. -/
theorem C7_social_nav_witness :
    ([("LinkedIn", "https://l.example"), ("CV", "cv.pdf")].Perm
        [("CV", "cv.pdf"), ("LinkedIn", "https://l.example")]) ∧
    (socialEntries (load_social_links
        (some [("LinkedIn", "https://l.example"), ("CV", "cv.pdf")]))).map Prod.fst =
      (socialEntries (load_social_links
        (some [("CV", "cv.pdf"), ("LinkedIn", "https://l.example")]))).map Prod.fst :=
  ⟨List.Perm.swap _ _ _,
   C7_social_nav.2.2.2.2.1 [("LinkedIn", "https://l.example"), ("CV", "cv.pdf")]
     [("CV", "cv.pdf"), ("LinkedIn", "https://l.example")] (List.Perm.swap _ _ _)⟩

/-! ## Claim theorems: hard vs. soft failures and the assembled page (C8, C9) -/

/-- C8: the build raises exactly when the publications table is absent;
every optional input (bio, link tables, illustration, abstract) may be
missing without failing — the corresponding markup is simply omitted or a
default is used. -/
theorem C8_required_vs_optional :
    (∀ i : BuildInputs, (∃ s, build_document i = .ok s) ↔ i.pubRows.isSome = true) ∧
    (∀ (bio : Option String) (social author : Option (List (String × String)))
        (folders : List PubFolder),
      build_document ⟨bio, social, author, none, folders⟩ = .error ()) ∧
    (build_document ⟨none, none, none, some [], []⟩).isOk = true ∧
    hasSubS (serializeNode (build_publication_article ⟨"1", "T", "", "", "", "", ""⟩
      (load_author_links none) [⟨"1_x", [("p_abstract.txt", "Hello")]⟩])) "<img" = false ∧
    hasSubS (serializeNode (build_publication_article ⟨"1", "T", "", "", "", "", ""⟩
      (load_author_links none) [⟨"1_x", [("a_illustration.png", "")]⟩])) "<img" = true ∧
    socialEntries (load_social_links none) = [("Email", "mailto:skobelev@uchicago.edu")] ∧
    paragraphs_from_file none = [] ∧
    build_bio_section none =
      Node.tag "section" [("class", "section"), ("id", "bio")]
        [Node.tag "h2" [] [Node.text "Bio"], Node.tag "div" [("id", "bio-content")] []] := by
  refine ⟨?_, ?_, by rfl, by decide, by decide, by decide, by rfl, by rfl⟩
  · intro i
    constructor
    · rintro ⟨s, hs⟩
      cases hp : i.pubRows with
      | none =>
        rw [show build_document i =
          (match load_publication_rows i.pubRows with
            | .error e => .error e
            | .ok rows => .ok (serializeNode (htmlNode i rows))) from rfl, hp] at hs
        cases hs
      | some rows => rfl
    · intro hsome
      cases hp : i.pubRows with
      | none => rw [hp] at hsome; cases hsome
      | some rows =>
        refine ⟨serializeNode (htmlNode i (rows.map stripRow)), ?_⟩
        rw [show build_document i =
          (match load_publication_rows i.pubRows with
            | .error e => .error e
            | .ok rows => .ok (serializeNode (htmlNode i rows))) from rfl, hp]
        rfl
  · intro bio social author folders
    rfl

/-- C8 witness: the failure criterion evaluated on concrete inputs — a
present (even empty) publications table builds, an absent one errors. -/
theorem C8_required_vs_optional_witness :
    (∃ s, build_document ⟨none, none, none, some [], []⟩ = .ok s) ∧
    (Option.isSome (some ([] : List PubRow)) = true) :=
  ⟨(C8_required_vs_optional.1 ⟨none, none, none, some [], []⟩).mpr (by rfl), rfl⟩

/-- C9 evidence: `build_document` is a pure function of its inputs (two
runs over equal inputs are byte-identical), the current year appears
nowhere in the build (the only `copy-year` reference is the client-side
script text); however the footer node — the span placeholder included — is
constructed and then never appended to the body, so the output contains no
`<footer>` and no `<span>` at all, contradicting the claim's parenthetical
that the footer with its placeholder is part of the output. -/
theorem C9_deterministic_no_baked_year :
    (∀ i₁ i₂ : BuildInputs, i₁ = i₂ → build_document i₁ = build_document i₂) ∧
    serializeNode footerNode =
      "<footer class=\"site-footer\"><p>© <span id=\"copy-year\"></span> Kirill Skobelev</p></footer>" ∧
    ((build_document ⟨none, none, none, some [], []⟩).toOption.map
        (fun s => (hasSubS s "<footer", hasSubS s "<span", hasSubS s "copy-year"))) =
      some (false, false, true) := by
  refine ⟨fun i₁ i₂ h => by rw [h], by decide, by decide⟩

/-- C9 witness: determinism applied at a concrete input. -/
theorem C9_deterministic_witness :
    build_document ⟨none, none, none, some [], []⟩ =
      build_document ⟨none, none, none, some [], []⟩ :=
  C9_deterministic_no_baked_year.1 _ _ rfl

/-! ## Claim theorems: paragraph splitting (C10) -/

lemma dropWhile_dropWhile (p : Char → Bool) (l : Chars) :
    (l.dropWhile p).dropWhile p = l.dropWhile p := by
  cases h : l.dropWhile p with
  | nil => rfl
  | cons c t =>
    have hmatch := List.head?_dropWhile_not p l
    rw [h] at hmatch
    have hc : p c = false := hmatch
    rw [List.dropWhile_cons, hc]
    simp

lemma pyStrip_no_leading (l : Chars) : (pyStrip l).dropWhile isPySpace = pyStrip l := by
  unfold pyStrip
  cases hb : ((l.dropWhile isPySpace).reverse.dropWhile isPySpace).reverse with
  | nil => rfl
  | cons c t =>
    have hlast : ((l.dropWhile isPySpace).reverse.dropWhile isPySpace).getLast? = some c := by
      rw [← List.head?_reverse, hb]
      rfl
    have hcspace : isPySpace c = false := by
      cases hB : (l.dropWhile isPySpace).reverse.dropWhile isPySpace with
      | nil => rw [hB] at hlast; cases hlast
      | cons b u =>
        have hsplit := List.takeWhile_append_dropWhile isPySpace (l.dropWhile isPySpace).reverse
        rw [hB] at hsplit
        have hlast2 : ((l.dropWhile isPySpace).reverse).getLast? = some c := by
          rw [← hsplit, List.getLast?_append_of_ne_nil _ (by simp), ← hB, hlast]
        rw [List.getLast?_reverse] at hlast2
        have hmatch := List.head?_dropWhile_not isPySpace l
        rw [hlast2] at hmatch
        exact hmatch
    rw [List.dropWhile_cons, hcspace]
    simp

lemma pyStrip_no_trailing (l : Chars) :
    (pyStrip l).reverse.dropWhile isPySpace = (pyStrip l).reverse := by
  unfold pyStrip
  rw [List.reverse_reverse]
  exact dropWhile_dropWhile isPySpace _

lemma pyStrip_idem (l : Chars) : pyStrip (pyStrip l) = pyStrip l := by
  show (((pyStrip l).dropWhile isPySpace).reverse.dropWhile isPySpace).reverse = pyStrip l
  rw [pyStrip_no_leading, pyStrip_no_trailing, List.reverse_reverse]

/-- C10: `paragraphs_from_file` is total, returns `[]` for an absent file
or content that strips to empty; paragraph boundaries are exactly `"\n\n"`
occurrences after replacing CRLF by LF — so a separator line of spaces or
tabs does not split and a lone CR is not normalized — and every returned
paragraph is its own strip and non-empty. -/
theorem C10_paragraphs_from_file :
    paragraphs_from_file none = [] ∧
    (∀ s : String, pyStripS s = "" → paragraphs_from_file (some s) = []) ∧
    paragraphs_from_file (some "a\n \nb") = ["a\n \nb"] ∧
    paragraphs_from_file (some "a\r\rb") = ["a\r\rb"] ∧
    paragraphs_from_file (some "a\r\n\r\nb") = ["a", "b"] ∧
    paragraphs_from_file (some "a\n\nb\n\n\nc") = ["a", "b", "c"] ∧
    (∀ (s p : String), p ∈ paragraphs_from_file (some s) → pyStripS p = p ∧ p ≠ "") := by
  refine ⟨rfl, ?_, by decide, by decide, by decide, by decide, ?_⟩
  · intro s h
    have hdat : pyStrip s.data = [] := congrArg String.data h
    simp [paragraphs_from_file, hdat]
  · intro s p hp
    by_cases hemp : (pyStrip s.data).isEmpty
    · rw [show paragraphs_from_file (some s) = [] by simp [paragraphs_from_file, hemp]] at hp
      cases hp
    · rw [show paragraphs_from_file (some s) =
        (((pySplit (pyReplace (pyStrip s.data) "\r\n".data "\n".data) "\n\n".data).map
            pyStrip).filter (fun q => !q.isEmpty)).map (fun q => (⟨q⟩ : String)) by
          simp [paragraphs_from_file, hemp]] at hp
      obtain ⟨q, hq, rfl⟩ := List.mem_map.mp hp
      have hqf := List.mem_filter.mp hq
      obtain ⟨q0, _, rfl⟩ := List.mem_map.mp hqf.1
      refine ⟨?_, ?_⟩
      · show (⟨pyStrip (pyStrip q0)⟩ : String) = ⟨pyStrip q0⟩
        rw [pyStrip_idem]
      · intro he
        have : pyStrip q0 = [] := congrArg String.data he
        rw [this] at hqf
        simpa using hqf.2

/-- C10 witness: the strip-to-empty clause applied to a whitespace file and
the per-paragraph clause applied to a concrete split. -/
theorem C10_paragraphs_from_file_witness :
    (pyStripS " \t\n" = "" ∧ paragraphs_from_file (some " \t\n") = []) ∧
    ("a" ∈ paragraphs_from_file (some "a\r\n\r\nb") ∧ pyStripS "a" = "a" ∧ "a" ≠ "") :=
  ⟨⟨by decide, C10_paragraphs_from_file.2.1 " \t\n" (by decide)⟩,
   ⟨by decide,
    C10_paragraphs_from_file.2.2.2.2.2.2 "a\r\n\r\nb" "a" (by decide)⟩⟩

end BuildIndex
